import Mathlib

/-!
Verification of the catalog-alignment utilities of `fsButler/utils.py`
(lsst-dm/fsbutler).

The development shallowly embeds the schema-reconciliation and
catalog-matching core of the module: field/schema data model, glob-pattern
extraction, filter-suffix discovery (`getCatSuffixes`), the fixed
filter-identifier lookup (`_getFilterSuffix`), the schema-mapper builder
(`createSchemaMapper`), the row-quality predicate (`goodSources`) and the
one-to-one matcher (`strictMatch`).  The spatial cross-match collaborator
(`afwTable.matchRaDec`) is out of scope for the module, so `strictMatch`
is parameterised by the candidate list that collaborator returns.
Angular separations are modelled as rationals (only their ordering is
used by the code), 64-bit row ids as naturals, and cell values as
integers (only copied, never inspected).
-/

/-- A named, typed column definition: models `lsst.afw.table.Field`
(name, type tag such as "F"/"L"/"Flag", documentation string). -/
structure AfwField where
  name : String
  ftype : String
  doc : String
deriving DecidableEq, Repr

/-- Models `AfwField.copyRenamed`: same definition under a new name. -/
def copyRenamed (f : AfwField) (n : String) : AfwField :=
  { f with name := n }

/-- A schema is the ordered list of column definitions of a catalog. -/
abbrev Schema := List AfwField

/-- Glob matching with `*` wildcards, fuel-indexed so that it is
structurally recursive: every recursive call shrinks the combined
length of pattern and string, so the initial fuel below is never
exhausted. -/
def globMatchFuel : Nat → List Char → List Char → Bool
  | 0, _, _ => false
  | _ + 1, [], [] => true
  | _ + 1, [], _ :: _ => false
  | fuel + 1, '*' :: ps, s =>
    globMatchFuel fuel ps s ||
      (match s with
       | [] => false
       | _ :: s1 => globMatchFuel fuel ('*' :: ps) s1)
  | _ + 1, _ :: _, [] => false
  | fuel + 1, p :: ps, c :: cs => (p == c) && globMatchFuel fuel ps cs

/-- Glob matching with `*` wildcards, as used by `Schema.extract`
patterns ("flux.psf*", "*_g", ...).  All other characters are literal. -/
def globMatch (p s : List Char) : Bool :=
  globMatchFuel (p.length + s.length + 1) p s

/-- Models `schema.find(name)` returning the column; `none` models the
fatal schema-lookup failure on a missing name. -/
def Schema.findCol (s : Schema) (n : String) : Option AfwField :=
  s.find? (fun f => f.name == n)

/-- Models `schema.extract(pattern)`: names of all columns whose name
matches the glob pattern, in schema order. -/
def Schema.extract (s : Schema) (p : String) : List String :=
  (s.filter (fun f => globMatch p.data f.name.data)).map AfwField.name

/-- The fixed identity/coordinate columns (`_fixedFields` in the source). -/
def _fixedFields : List String := ["id", "coord"]

/-- `_fixedPatterns` in the source (empty). -/
def _fixedPatterns : List String := []

/-- `_suffixableFields` in the source. -/
def _suffixableFields : List String :=
  ["parent",
   "deblend.nchild",
   "classification.extendedness",
   "flags.pixel.bad",
   "flags.pixel.edge",
   "flags.pixel.interpolated.any",
   "flags.pixel.interpolated.center",
   "flags.pixel.saturated.any",
   "flags.pixel.saturated.center"]

/-- `_suffixablePatterns` in the source. -/
def _suffixablePatterns : List String :=
  ["flux.zeromag*",
   "flux.psf*",
   "cmodel*",
   "centroid*",
   "seeing*",
   "exptime*",
   "multId*"]

/-- The module-level synthetic column templates of the source. -/
def _zeroMagField : AfwField :=
  ⟨"flux.zeromag", "F", "The flux corresponding to zero magnitude."⟩

def _zeroMagErrField : AfwField :=
  ⟨"flux.zeromag.err", "F", "The flux error corresponding to zero magnitude."⟩

def _stellarField : AfwField :=
  ⟨"stellar", "Flag", "If true, the object is known to be a star: if false it is known not to be a star."⟩

def _magAutoField : AfwField :=
  ⟨"mag.auto", "F", "The magnitude computed by SExtractor in the HST catalog."⟩

def _seeingField : AfwField :=
  ⟨"seeing", "F", "The PSF FWHM."⟩

def _exptimeField : AfwField :=
  ⟨"exptime", "F", "Exposure time."⟩

def _idField : AfwField :=
  ⟨"multId", "L", "Multiple id, this field is in place to keep track of the ids of the matches in other catalogs/bands"⟩

/-- Models `_getFilterSuffix`: fixed five-entry lookup from HSC filter
identifiers to two-character suffixes, identity on everything else. -/
def _getFilterSuffix (filterSuffix : String) : String :=
  if filterSuffix = "HSC-G" then "_g"
  else if filterSuffix = "HSC-R" then "_r"
  else if filterSuffix = "HSC-I" then "_i"
  else if filterSuffix = "HSC-Z" then "_z"
  else if filterSuffix = "HSC-Y" then "_y"
  else filterSuffix

/-- Models `_suffixOrder`: sort key for the five band suffixes.
The source returns `None` off these five values and only ever sorts
lists of regex-extracted suffixes; `0` is the total extension. -/
def _suffixOrder (suffix : String) : Nat :=
  if suffix = "_g" then 1
  else if suffix = "_r" then 2
  else if suffix = "_i" then 3
  else if suffix = "_z" then 4
  else if suffix = "_y" then 5
  else 0

/-- Band character test: the character class `[grizy]` of `_suffixRegex`. -/
def isBandChar (c : Char) : Bool :=
  c == 'g' || c == 'r' || c == 'i' || c == 'z' || c == 'y'

/-- Models `_suffixRegex.search(name)` for the regex `(_[grizy])$`:
returns the matched trailing `_<band>` group, if any. -/
def suffixSearch (name : String) : Option String :=
  match name.data.reverse with
  | b :: c :: _ =>
    if c = '_' then
      if b = 'g' then some "_g"
      else if b = 'r' then some "_r"
      else if b = 'i' then some "_i"
      else if b = 'z' then some "_z"
      else if b = 'y' then some "_y"
      else none
    else none
  | _ => none

/-- Stable insertion into a list sorted by `le`: the new element goes
after every existing element `b` with `le b a`. -/
def insertByKey (le : String → String → Bool) (a : String) : List String → List String
  | [] => [a]
  | b :: l => if le b a then b :: insertByKey le a l else a :: b :: l

/-- Stable sort by `le`, inserting left to right: models Python
`list.sort(key=...)`, which is a stable sort. -/
def sortByKey (le : String → String → Bool) (l : List String) : List String :=
  l.foldl (fun acc x => insertByKey le x acc) []

/-- The comparison `list.sort(key=_suffixOrder)` sorts by. -/
def suffixLe (a b : String) : Bool :=
  decide (_suffixOrder a ≤ _suffixOrder b)

/-- One iteration of the collection loop of `getCatSuffixes` (source
lines 97-103): append the extracted suffix unless already present. -/
def collectStep (suffixes : List String) (schemaItem : AfwField) : List String :=
  match suffixSearch schemaItem.name with
  | some suffix =>
    if suffixes.contains suffix then suffixes else suffixes ++ [suffix]
  | none => suffixes

/-- The collection loop of `getCatSuffixes` (source lines 96-103):
distinct trailing band suffixes of the schema field names, in order of
first appearance. -/
def collectSuffixes (cat : Schema) : List String :=
  cat.foldl collectStep []

/-- Models `getCatSuffixes`: collect the distinct trailing band suffixes
of the schema field names, then sort them with `_suffixOrder` as the key
(Python `list.sort` is a stable sort). -/
def getCatSuffixes (cat : Schema) : List String :=
  sortByKey suffixLe (collectSuffixes cat)

/-- A source-catalog row as read by `goodSources`: flag columns and
integer columns accessed by name.  Rows are read-only to the module. -/
structure SourceRow where
  flag : String → Bool
  field : String → Int

/-- The configured bad-flag column set of `goodSources`. -/
def badFlagColumns : List String :=
  ["flags.pixel.edge",
   "flags.pixel.bad",
   "flags.pixel.saturated.center"]

/-- Models `goodSources`: per-row, `reduce(logical_or)` of the bad-flag
columns, negated, and-ed with `deblend.nchild == 0`.  The numpy
expressions are element-wise, hence the per-row map. -/
def goodSources (cat : List SourceRow) : List Bool :=
  cat.map (fun r =>
    let bad := badFlagColumns.foldl (fun x y => x || r.flag y) false
    let good := !bad
    good && (r.field "deblend.nchild" == 0))

/-- Error taxonomy of the module: the two explicit `ValueError`
misconfigurations raised by `createSchemaMapper`, the fatal
schema-lookup failure of `schema.find` on a missing column name, and
the duplicate-name rejection of the afw output schema. -/
inductive MapErr where
  | configTwoCatalogs
  | configAlreadySuffixed
  | lookupFailed (name : String)
  | duplicateField (name : String)
deriving DecidableEq, Repr

/-- One entry of a schema mapper: a copy directive from a source column
to a target column, or an output-only column with no source. -/
inductive Directive where
  | mapped (src : String) (tgt : AfwField)
  | outputOnly (tgt : AfwField)
deriving DecidableEq, Repr

/-- The target column of a directive. -/
def Directive.target : Directive → AfwField
  | .mapped _ tgt => tgt
  | .outputOnly tgt => tgt

/-- A schema mapper is its list of directives, in insertion order. -/
abbrev SchemaMapper := List Directive

/-- Models `scm.getOutputSchema()`: the target columns in insertion
order. -/
def outputSchema (scm : SchemaMapper) : Schema :=
  scm.map Directive.target

/-- Append a directive, rejecting a duplicate target name exactly as
the afw output schema rejects adding a second column of the same name. -/
def addDirective (scm : SchemaMapper) (d : Directive) : Except MapErr SchemaMapper :=
  if (outputSchema scm).any (fun f => f.name == d.target.name) then
    Except.error (MapErr.duplicateField d.target.name)
  else
    Except.ok (scm ++ [d])

/-- `schema.find(n)` as used inside `createSchemaMapper`: the column, or
the fatal lookup failure. -/
def Schema.findE (s : Schema) (n : String) : Except MapErr AfwField :=
  match Schema.findCol s n with
  | some f => Except.ok f
  | none => Except.error (MapErr.lookupFailed n)

/-- Python truthiness of the optional `filterSuffix` argument: `None`
and the empty string are falsy. -/
def pyTruthy (s : Option String) : Bool :=
  match s with
  | none => false
  | some str => str != ""

/-- Source lines 133-137: map the fixed fields and fixed patterns
through unchanged. -/
def stageFixed (schema : Schema) (scm : SchemaMapper) : Except MapErr SchemaMapper := do
  let scm ← _fixedFields.foldlM
    (fun scm f => do
      let fld ← Schema.findE schema f
      addDirective scm (.mapped f fld))
    scm
  _fixedPatterns.foldlM
    (fun scm p =>
      (Schema.extract schema p).foldlM
        (fun scm f => do
          let fld ← Schema.findE schema f
          addDirective scm (.mapped f fld))
        scm)
    scm

/-- Source lines 140-142: when a filterSuffix was given (`is not None`),
reserve the suffixed `multId` output-only column. -/
def stageMultId (filterSuffix : Option String) (suffix : String) (scm : SchemaMapper) :
    Except MapErr SchemaMapper :=
  if filterSuffix.isSome then
    addDirective scm (.outputOnly (copyRenamed _idField ("multId" ++ suffix)))
  else
    Except.ok scm

/-- Source lines 143-153: map each suffixable field, renamed with the
derived suffix when a filterSuffix was given (`is not None`), straight
through when the catalog carries no suffixes, and once per discovered
suffix otherwise. -/
def stageSuffixable (schema : Schema) (suffixes : List String)
    (filterSuffix : Option String) (suffix : String) (scm : SchemaMapper) :
    Except MapErr SchemaMapper :=
  _suffixableFields.foldlM
    (fun scm f =>
      if filterSuffix.isSome then do
        let fld ← Schema.findE schema f
        addDirective scm (.mapped f (copyRenamed fld (f ++ suffix)))
      else
        if suffixes.length = 0 then do
          let fld ← Schema.findE schema f
          addDirective scm (.mapped f fld)
        else
          suffixes.foldlM
            (fun scm s => do
              let fld ← Schema.findE schema (f ++ s)
              addDirective scm (.mapped (f ++ s) fld))
            scm)
    scm

/-- Source lines 154-162: map each column matching a suffixable pattern,
renamed when filterSuffix is truthy (`if filterSuffix:`), straight
through otherwise (the glob extraction already enumerates the per-suffix
names). -/
def stageSuffixablePatterns (schema : Schema) (filterSuffix : Option String)
    (suffix : String) (scm : SchemaMapper) : Except MapErr SchemaMapper :=
  _suffixablePatterns.foldlM
    (fun scm p =>
      (Schema.extract schema p).foldlM
        (fun scm f =>
          if pyTruthy filterSuffix then do
            let fld ← Schema.findE schema f
            addDirective scm (.mapped f (copyRenamed fld (f ++ suffix)))
          else do
            let fld ← Schema.findE schema f
            addDirective scm (.mapped f fld))
        scm)
    scm

/-- Source lines 164-175: when a second catalog was supplied, reserve an
output-only column for every suffixable field of the second catalog per
discovered suffix, and for every second-catalog column matching a
suffixable pattern, carrying the second catalog's field definition. -/
def stageCat2Body (schema2 : Schema) (scm : SchemaMapper) : Except MapErr SchemaMapper := do
  let scm ← _suffixableFields.foldlM
    (fun scm f =>
      (getCatSuffixes schema2).foldlM
        (fun scm s => do
          let fld ← Schema.findE schema2 (f ++ s)
          addDirective scm (.outputOnly fld))
        scm)
    scm
  _suffixablePatterns.foldlM
    (fun scm p =>
      (Schema.extract schema2 p).foldlM
        (fun scm f => do
          let fld ← Schema.findE schema2 f
          addDirective scm (.outputOnly fld))
        scm)
    scm

def stageCat2 (cat2 : Option Schema) (scm : SchemaMapper) : Except MapErr SchemaMapper :=
  match cat2 with
  | none => Except.ok scm
  | some schema2 => stageCat2Body schema2 scm

/-- Source lines 177-188: the optional zero-magnitude flux columns, with
the truthiness-tested single-suffix / no-suffix / per-discovered-suffix
fan-out. -/
def stageZeroMag (suffixes : List String) (filterSuffix : Option String)
    (suffix : String) (withZeroMagFlux : Bool) (scm : SchemaMapper) :
    Except MapErr SchemaMapper :=
  if withZeroMagFlux then
    if pyTruthy filterSuffix then do
      let scm ← addDirective scm (.outputOnly (copyRenamed _zeroMagField ("flux.zeromag" ++ suffix)))
      addDirective scm (.outputOnly (copyRenamed _zeroMagErrField ("flux.zeromag.err" ++ suffix)))
    else if suffixes.length = 0 then do
      let scm ← addDirective scm (.outputOnly _zeroMagField)
      addDirective scm (.outputOnly _zeroMagErrField)
    else
      suffixes.foldlM
        (fun scm s => do
          let scm ← addDirective scm (.outputOnly (copyRenamed _zeroMagField ("flux.zeromag" ++ s)))
          addDirective scm (.outputOnly (copyRenamed _zeroMagErrField ("flux.zeromag.err" ++ s))))
        scm
  else
    Except.ok scm

/-- Source lines 190-198: the optional seeing column, same fan-out. -/
def stageSeeing (suffixes : List String) (filterSuffix : Option String)
    (suffix : String) (withSeeing : Bool) (scm : SchemaMapper) :
    Except MapErr SchemaMapper :=
  if withSeeing then
    if pyTruthy filterSuffix then
      addDirective scm (.outputOnly (copyRenamed _seeingField ("seeing" ++ suffix)))
    else if suffixes.length = 0 then
      addDirective scm (.outputOnly _seeingField)
    else
      suffixes.foldlM
        (fun scm s => addDirective scm (.outputOnly (copyRenamed _seeingField ("seeing" ++ s))))
        scm
  else
    Except.ok scm

/-- Source lines 200-208: the optional exposure-time column, same
fan-out. -/
def stageExptime (suffixes : List String) (filterSuffix : Option String)
    (suffix : String) (withExptime : Bool) (scm : SchemaMapper) :
    Except MapErr SchemaMapper :=
  if withExptime then
    if pyTruthy filterSuffix then
      addDirective scm (.outputOnly (copyRenamed _exptimeField ("exptime" ++ suffix)))
    else if suffixes.length = 0 then
      addDirective scm (.outputOnly _exptimeField)
    else
      suffixes.foldlM
        (fun scm s => addDirective scm (.outputOnly (copyRenamed _exptimeField ("exptime" ++ s))))
        scm
  else
    Except.ok scm

/-- Source lines 210-212: the optional stellar flag and auxiliary
magnitude columns. -/
def stageStellar (withStellar : Bool) (scm : SchemaMapper) : Except MapErr SchemaMapper :=
  if withStellar then do
    let scm ← addDirective scm (.outputOnly _stellarField)
    addDirective scm (.outputOnly _magAutoField)
  else
    Except.ok scm

/-- The suffix variable the source binds at line 141: the derived
two-character suffix when `filterSuffix` was given; it is only read in
branches that are reachable when `filterSuffix` is not `None`. -/
def derivedSuffix (filterSuffix : Option String) : String :=
  match filterSuffix with
  | some fs => _getFilterSuffix fs
  | none => ""

/-- The mapping-construction body of `createSchemaMapper` (source lines
129-214), run after the two precondition guards. -/
def createSchemaMapperBody (cat : Schema) (cat2 : Option Schema)
    (filterSuffix : Option String) (withZeroMagFlux withStellar withSeeing withExptime : Bool) :
    Except MapErr SchemaMapper := do
  let scm ← stageFixed cat []
  let scm ← stageMultId filterSuffix (derivedSuffix filterSuffix) scm
  let scm ← stageSuffixable cat (getCatSuffixes cat) filterSuffix (derivedSuffix filterSuffix) scm
  let scm ← stageSuffixablePatterns cat filterSuffix (derivedSuffix filterSuffix) scm
  let scm ← stageCat2 cat2 scm
  let scm ← stageZeroMag (getCatSuffixes cat) filterSuffix (derivedSuffix filterSuffix) withZeroMagFlux scm
  let scm ← stageSeeing (getCatSuffixes cat) filterSuffix (derivedSuffix filterSuffix) withSeeing scm
  let scm ← stageExptime (getCatSuffixes cat) filterSuffix (derivedSuffix filterSuffix) withExptime scm
  stageStellar withStellar scm

/-- Models `createSchemaMapper` (source lines 119-214).  The first guard
tests the truthiness of `filterSuffix` (`if cat2 is not None and
filterSuffix:`); the second tests presence (`is not None`). -/
def createSchemaMapper (cat : Schema) (cat2 : Option Schema)
    (filterSuffix : Option String) (withZeroMagFlux withStellar withSeeing withExptime : Bool) :
    Except MapErr SchemaMapper :=
  if cat2.isSome && pyTruthy filterSuffix then
    Except.error MapErr.configTwoCatalogs
  else if 0 < (getCatSuffixes cat).length && filterSuffix.isSome then
    Except.error MapErr.configAlreadySuffixed
  else
    createSchemaMapperBody cat cat2 filterSuffix withZeroMagFlux withStellar withSeeing withExptime

/-- A catalog row as consumed by `strictMatch`: its 64-bit identifier
(`getId`) and its cell values read by column name (`get`).  Cell values
are opaque to the matcher (copied, never inspected). -/
structure SrcRec where
  id : Nat
  get : String → Int

/-- One entry of the candidate list returned by the spatial cross-match
collaborator `afwTable.matchRaDec`: first-catalog row, optional
second-catalog row (absent for the mismatches included under
`includeMismatches`), and angular separation. -/
abbrev Cand := SrcRec × Option SrcRec × ℚ

/-- A surviving match: first-catalog row, second-catalog row,
separation. -/
abbrev Triple := SrcRec × SrcRec × ℚ

/-- The separation of a surviving match. -/
def tripleDist (t : Triple) : ℚ := t.2.2

/-- Lookup in an insertion-ordered association list: models both
`id in bestMatches` and `bestMatches[id]`. -/
def assocLookup : List (Nat × Triple) → Nat → Option Triple
  | [], _ => none
  | (k, v) :: rest, id => if id = k then some v else assocLookup rest id

/-- Models Python dict assignment `bestMatches[id] = v`: replace in
place when the key is present, append otherwise. -/
def dictAssign : List (Nat × Triple) → Nat → Triple → List (Nat × Triple)
  | [], k, v => [(k, v)]
  | (k0, v0) :: rest, k, v =>
    if k0 = k then (k, v) :: rest else (k0, v0) :: dictAssign rest k v

/-- One iteration of the `strictMatch` reduction loop (source lines
242-251) on the `bestMatches` dict: ignore candidates with no
second-catalog row here, insert a first candidate for a new id, and
replace the stored candidate only on strictly smaller separation. -/
def bestStep (bm : List (Nat × Triple)) (c : Cand) : List (Nat × Triple) :=
  match c.2.1 with
  | none => bm
  | some m2 =>
    match assocLookup bm m2.id with
    | none => dictAssign bm m2.id (c.1, m2, c.2.2)
    | some t0 =>
      if c.2.2 < tripleDist t0 then dictAssign bm m2.id (c.1, m2, c.2.2) else bm

/-- The `bestMatches` dict after the reduction loop. -/
def bestMatchesLoop (bm : List (Nat × Triple)) : List Cand → List (Nat × Triple)
  | [] => bm
  | c :: rest => bestMatchesLoop (bestStep bm c) rest

/-- The `noMatch` list after the reduction loop: the first-catalog rows
of the candidates with no second-catalog row, in processing order. -/
def noMatchLoop (acc : List SrcRec) : List Cand → List SrcRec
  | [] => acc
  | (m1, none, _) :: rest => noMatchLoop (acc ++ [m1]) rest
  | (_, some _, _) :: rest => noMatchLoop acc rest

/-- The candidates of a given second-catalog row id, as the matches
they would be stored as: the per-id trace of the reduction loop. -/
def sameIdCands (id : Nat) (matched : List Cand) : List Triple :=
  matched.filterMap
    (fun c =>
      match c.2.1 with
      | some m2 => if m2.id = id then some (c.1, m2, c.2.2) else none
      | none => none)

/-- The per-id evolution of the stored candidate: a first candidate is
stored, a later one replaces it only on strictly smaller separation. -/
def stepSel (cur : Option Triple) (t : Triple) : Option Triple :=
  match cur with
  | none => some t
  | some t0 => if tripleDist t < tripleDist t0 then some t else some t0

/-- Running minimum with earliest-wins tie-break, starting from `cur`. -/
def selGo (cur : Triple) : List Triple → Triple
  | [] => cur
  | t :: rest => selGo (if tripleDist t < tripleDist cur then t else cur) rest

/-- The invariant of the `bestMatches` dict: keys are pairwise distinct
and each stored match carries the second-catalog row of its key. -/
def bmInv (bm : List (Nat × Triple)) : Prop :=
  (bm.map Prod.fst).Nodup ∧ ∀ e ∈ bm, e.2.2.1.id = e.1

/-- Column-name uniqueness of a schema mapper's output schema: the
invariant the afw output schema enforces through `addDirective`. -/
def namesNodup (scm : SchemaMapper) : Prop :=
  ((outputSchema scm).map AfwField.name).Nodup

/-- The field names `strictMatch` selects for copying from the second
catalog (source lines 263-265): for each discovered suffix of the second
catalog, every column whose name matches the glob `*<suffix>`. -/
def strictCat2Fields (schema2 : Schema) : List String :=
  (getCatSuffixes schema2).foldl
    (fun cat2Fields suffix => cat2Fields ++ Schema.extract schema2 ("*" ++ suffix))
    []

/-- A freshly added output row (`cat.addNew()`): every cell holds the
default value. -/
def newRow : String → Int := fun _ => 0

/-- `record.set`: update one named cell of an output row. -/
def setCell (r : String → Int) (n : String) (v : Int) : String → Int :=
  fun x => if x = n then v else r x

/-- Models `record.assign(m1, scm)`: copy, for every mapping directive
of the schema mapper, the source cell of `m1` into the target column;
output-only columns keep their default. -/
def assignRow (scm : SchemaMapper) (m1 : SrcRec) : String → Int :=
  scm.foldl
    (fun r dir =>
      match dir with
      | .mapped src tgt => setCell r tgt.name (m1.get src)
      | .outputOnly _ => r)
    newRow

/-- One output row of `strictMatch` (source lines 271-274): assign the
mapped fields from the first-catalog row, then set each selected
second-catalog field from the second-catalog row. -/
def buildRow (scm : SchemaMapper) (cat2Fields : List String) (m1 m2 : SrcRec) :
    String → Int :=
  cat2Fields.foldl (fun r f => setCell r f (m2.get f)) (assignRow scm m1)

/-- The value returned by `strictMatch`: the merged catalog rows, plus
the two counts printed when `includeMismatches` is set (the function
prints them; it returns only the catalog). -/
structure StrictOut where
  rows : List (String → Int)
  printed : Option (Nat × Nat)

/-- The key-resolution loop of `strictMatch` (source lines 266-268):
look up every selected field name in the second catalog's schema and in
the output schema, collecting the key pairs and failing on the first
missing name. -/
def strictKeys (schema2 outSchema : Schema) : List String → Except MapErr (List (AfwField × AfwField))
  | [] => Except.ok []
  | f :: rest =>
    match Schema.findE schema2 f, Schema.findE outSchema f with
    | Except.ok k2, Except.ok k =>
      match strictKeys schema2 outSchema rest with
      | Except.ok ks => Except.ok ((k2, k) :: ks)
      | Except.error e => Except.error e
    | Except.error e, _ => Except.error e
    | _, Except.error e => Except.error e

/-- Models `strictMatch` (source lines 228-275), parameterised by the
candidate list `matched` that the spatial cross-match collaborator
returns for `(cat1, cat2, matchRadius, includeMismatches)`.  `cat1` and
`cat2` stand for the catalogs' schemas; the rows of `cat1` enter only
through `matched`. -/
def strictMatch (cat1 cat2 : Schema) (matched : List Cand) (includeMismatches : Bool) :
    Except MapErr StrictOut :=
  let noMatch := noMatchLoop [] matched
  let bestMatches := bestMatchesLoop [] matched
  let printed :=
    if includeMismatches then
      some (noMatch.length, matched.length - noMatch.length - bestMatches.length)
    else
      none
  match createSchemaMapper cat1 (some cat2) none false false false false with
  | Except.error e => Except.error e
  | Except.ok scm =>
    let schema := outputSchema scm
    let cat2Fields := strictCat2Fields cat2
    match strictKeys cat2 schema cat2Fields with
    | Except.error e => Except.error e
    | Except.ok _ =>
      Except.ok ⟨bestMatches.map (fun e => buildRow scm cat2Fields e.2.1 e.2.2.1), printed⟩

/-- A raw single-band catalog schema carrying the fixed fields and every
suffixable field, no suffixed columns and no pattern-matching columns. -/
def catEx : Schema :=
  [⟨"id", "L", "unique id"⟩,
   ⟨"coord", "Coord", "position in ra/dec"⟩,
   ⟨"parent", "L", "unique ID of parent source"⟩,
   ⟨"deblend.nchild", "I", "Number of children this object has"⟩,
   ⟨"classification.extendedness", "F", "probability of being extended"⟩,
   ⟨"flags.pixel.bad", "Flag", "bad pixel in the source footprint"⟩,
   ⟨"flags.pixel.edge", "Flag", "source is in region labeled EDGE"⟩,
   ⟨"flags.pixel.interpolated.any", "Flag", "interpolated pixel in the source footprint"⟩,
   ⟨"flags.pixel.interpolated.center", "Flag", "interpolated pixel in the source center"⟩,
   ⟨"flags.pixel.saturated.any", "Flag", "saturated pixel in the source footprint"⟩,
   ⟨"flags.pixel.saturated.center", "Flag", "saturated pixel in the source center"⟩]

/-- A second raw catalog schema with the same column set. -/
def cat2Ex : Schema := catEx

/-- A first catalog for the empty-filterSuffix scenario, with one extra
plain column that matches no pattern and carries no suffix. -/
def catC9 : Schema := catEx ++ [⟨"zmisc", "F", "an extra plain column"⟩]

/-- A second catalog for the empty-filterSuffix scenario. -/
def cat2C9 : Schema := catEx

/-- A merged multi-band second catalog: every suffixable field with the
`_g` suffix, plus one suffixed column `foo_g` that is neither a
suffixable field nor matches a suffixable pattern. -/
def cat2Foo : Schema :=
  [⟨"id", "L", "unique id"⟩,
   ⟨"coord", "Coord", "position in ra/dec"⟩,
   ⟨"parent_g", "L", "unique ID of parent source"⟩,
   ⟨"deblend.nchild_g", "I", "Number of children this object has"⟩,
   ⟨"classification.extendedness_g", "F", "probability of being extended"⟩,
   ⟨"flags.pixel.bad_g", "Flag", "bad pixel in the source footprint"⟩,
   ⟨"flags.pixel.edge_g", "Flag", "source is in region labeled EDGE"⟩,
   ⟨"flags.pixel.interpolated.any_g", "Flag", "interpolated pixel in the source footprint"⟩,
   ⟨"flags.pixel.interpolated.center_g", "Flag", "interpolated pixel in the source center"⟩,
   ⟨"flags.pixel.saturated.any_g", "Flag", "saturated pixel in the source footprint"⟩,
   ⟨"flags.pixel.saturated.center_g", "Flag", "saturated pixel in the source center"⟩,
   ⟨"foo_g", "F", "a suffixed column outside the suffixable set"⟩]

/-- Concrete first-catalog rows. -/
def aRec : SrcRec := ⟨1, fun _ => 10⟩

def aRec2 : SrcRec := ⟨2, fun _ => 20⟩

/-- Concrete second-catalog rows; `bRec` and `bRec2` share the id 5. -/
def bRec : SrcRec := ⟨5, fun _ => 50⟩

def bRec2 : SrcRec := ⟨5, fun _ => 55⟩

/-- A candidate list with one true match. -/
def candsEx : List Cand := [(aRec, some bRec, 1)]

/-- A candidate list with one mismatch and one true match. -/
def candsC5 : List Cand := [(aRec, none, 1), (aRec2, some bRec, 1)]

/-- Two candidates for the same second-catalog id, the later one
closer. -/
def candsC2 : List Cand := [(aRec, some bRec, 2), (aRec2, some bRec2, 1)]

/-- The surviving triple for `candsC2`. -/
def tripleC2 : Triple := (aRec2, bRec2, 1)

/-- The merged-catalog value of the `candsEx` run, used to witness the
success hypotheses of the `strictMatch` theorems. -/
def outEx : StrictOut :=
  (strictMatch catEx cat2Ex candsEx true).toOption.getD ⟨[], none⟩

/-- The merged-catalog value of the `candsC5` run. -/
def outC5 : StrictOut :=
  (strictMatch catEx cat2Ex candsC5 true).toOption.getD ⟨[], none⟩

/-- A merged multi-band second catalog with every suffixable field
suffixed `_g` and nothing else besides the fixed columns. -/
def cat2Good : Schema :=
  [⟨"id", "L", "unique id"⟩,
   ⟨"coord", "Coord", "position in ra/dec"⟩,
   ⟨"parent_g", "L", "unique ID of parent source"⟩,
   ⟨"deblend.nchild_g", "I", "Number of children this object has"⟩,
   ⟨"classification.extendedness_g", "F", "probability of being extended"⟩,
   ⟨"flags.pixel.bad_g", "Flag", "bad pixel in the source footprint"⟩,
   ⟨"flags.pixel.edge_g", "Flag", "source is in region labeled EDGE"⟩,
   ⟨"flags.pixel.interpolated.any_g", "Flag", "interpolated pixel in the source footprint"⟩,
   ⟨"flags.pixel.interpolated.center_g", "Flag", "interpolated pixel in the source center"⟩,
   ⟨"flags.pixel.saturated.any_g", "Flag", "saturated pixel in the source footprint"⟩,
   ⟨"flags.pixel.saturated.center_g", "Flag", "saturated pixel in the source center"⟩]

/-- Candidate lists with a single unmatched first-catalog row, differing
only in which row is unmatched. -/
def candsN1 : List Cand := [(aRec, none, 1)]

def candsN2 : List Cand := [(aRec2, none, 1)]

/-- A candidate list for the suffixed-copy scenario. -/
def candsC3 : List Cand := [(aRec, some bRec, 1), (aRec2, some bRec2, 2)]

/-- The merged-catalog value of the `candsC3` run against `cat2Good`. -/
def outC3 : StrictOut :=
  (strictMatch catEx cat2Good candsC3 true).toOption.getD ⟨[], none⟩

/-- A candidate list and output for the no-suffix scenario. -/
def candsC10 : List Cand := [(aRec2, some bRec2, 2)]

def outC10 : StrictOut :=
  (strictMatch catEx cat2Ex candsC10 true).toOption.getD ⟨[], none⟩

/-- A row with only the edge flag raised and no children. -/
def rowEdge : SourceRow := ⟨fun n => n == "flags.pixel.edge", fun _ => 0⟩

/-- A row with no bad flag and no children. -/
def rowClean : SourceRow := ⟨fun _ => false, fun _ => 0⟩

/-- Directive check used for the empty-suffix scenario: every mapping
directive renames its source column to its own name. -/
def identityMapped : Directive → Bool
  | .mapped src tgt => tgt.name == src
  | .outputOnly _ => true

/-- The five band suffixes in band order. -/
def fiveSuffixes : List String := ["_g", "_r", "_i", "_z", "_y"]

/-- C8: `_getFilterSuffix` maps each of the five HSC filter identifiers
to its two-character suffix and returns every other input string
unchanged. -/
theorem getFilterSuffix_fixed_lookup :
    _getFilterSuffix "HSC-G" = "_g" ∧ _getFilterSuffix "HSC-R" = "_r" ∧
    _getFilterSuffix "HSC-I" = "_i" ∧ _getFilterSuffix "HSC-Z" = "_z" ∧
    _getFilterSuffix "HSC-Y" = "_y" ∧
    ∀ s : String,
      s ∉ (["HSC-G", "HSC-R", "HSC-I", "HSC-Z", "HSC-Y"] : List String) →
      _getFilterSuffix s = s := by
  refine ⟨rfl, rfl, rfl, rfl, rfl, ?_⟩
  intro s hs
  simp only [List.mem_cons, List.not_mem_nil, or_false, not_or] at hs
  obtain ⟨h1, h2, h3, h4, h5⟩ := hs
  unfold _getFilterSuffix
  rw [if_neg h1, if_neg h2, if_neg h3, if_neg h4, if_neg h5]

/-- Witness for C8: an unrecognized identifier passes through. -/
theorem getFilterSuffix_fixed_lookup_witness :
    _getFilterSuffix "W-S-ZR" = "W-S-ZR" :=
  getFilterSuffix_fixed_lookup.2.2.2.2.2 "W-S-ZR" (by decide)

/-- C7: `goodSources` is a pure mask over the rows; entry `i` is `false`
exactly when one of the configured bad flags (edge, generic bad,
saturated center) holds for row `i` or its `deblend.nchild` count is
nonzero, and `true` otherwise. -/
theorem goodSources_mask (cat : List SourceRow) (i : Nat) (r : SourceRow)
    (h : cat[i]? = some r) :
    (goodSources cat).length = cat.length ∧
    ((goodSources cat)[i]? = some false ↔
      r.flag "flags.pixel.edge" = true ∨ r.flag "flags.pixel.bad" = true ∨
      r.flag "flags.pixel.saturated.center" = true ∨
      r.field "deblend.nchild" ≠ 0) := by
  refine ⟨by simp [goodSources], ?_⟩
  simp only [goodSources, badFlagColumns, List.getElem?_map, h, Option.map_some',
    Option.some.injEq, List.foldl_cons, List.foldl_nil, Bool.false_or]
  cases he : r.flag "flags.pixel.edge" <;>
    cases hb : r.flag "flags.pixel.bad" <;>
      cases hs : r.flag "flags.pixel.saturated.center" <;>
        simp [beq_eq_false_iff_ne]

/-- Witness for C7: a row with the edge flag raised is masked out. -/
theorem goodSources_mask_witness :
    (goodSources [rowEdge]).length = 1 ∧
    ((goodSources [rowEdge])[0]? = some false ↔
      rowEdge.flag "flags.pixel.edge" = true ∨ rowEdge.flag "flags.pixel.bad" = true ∨
      rowEdge.flag "flags.pixel.saturated.center" = true ∨
      rowEdge.field "deblend.nchild" ≠ 0) :=
  goodSources_mask [rowEdge] 0 rowEdge rfl

lemma insertByKey_perm (le : String → String → Bool) (a : String) (l : List String) :
    (insertByKey le a l).Perm (a :: l) := by
  induction l with
  | nil => exact List.Perm.refl _
  | cons b l ih =>
    unfold insertByKey
    by_cases h : le b a = true
    · rw [if_pos h]
      exact (ih.cons b).trans (List.Perm.swap a b l)
    · rw [if_neg h]

lemma mem_insertByKey (le : String → String → Bool) (a x : String) (l : List String) :
    x ∈ insertByKey le a l ↔ x = a ∨ x ∈ l := by
  rw [(insertByKey_perm le a l).mem_iff, List.mem_cons]

lemma sortFold_perm (le : String → String → Bool) :
    ∀ (l acc : List String),
      (l.foldl (fun acc x => insertByKey le x acc) acc).Perm (acc ++ l) := by
  intro l
  induction l with
  | nil => intro acc; simp
  | cons x l ih =>
    intro acc
    simp only [List.foldl_cons]
    refine (ih (insertByKey le x acc)).trans ?_
    refine ((insertByKey_perm le x acc).append_right l).trans ?_
    exact List.perm_middle.symm

lemma sortByKey_perm (le : String → String → Bool) (l : List String) :
    (sortByKey le l).Perm l := by
  have h := sortFold_perm le l []
  simpa [sortByKey] using h

lemma pairwise_insertByKey {le : String → String → Bool}
    (htrans : ∀ a b c, le a b = true → le b c = true → le a c = true)
    (htot : ∀ a b, le a b = false → le b a = true)
    (a : String) (l : List String)
    (hl : l.Pairwise (fun x y => le x y = true)) :
    (insertByKey le a l).Pairwise (fun x y => le x y = true) := by
  induction l with
  | nil => simp [insertByKey]
  | cons b l ih =>
    rcases List.pairwise_cons.mp hl with ⟨hb, hl'⟩
    unfold insertByKey
    by_cases h : le b a = true
    · rw [if_pos h]
      refine List.pairwise_cons.mpr ⟨?_, ih hl'⟩
      intro y hy
      rcases (mem_insertByKey le a y l).mp hy with rfl | hy'
      · exact h
      · exact hb y hy'
    · rw [if_neg h]
      refine List.pairwise_cons.mpr ⟨?_, hl⟩
      intro y hy
      rcases List.mem_cons.mp hy with rfl | hy'
      · exact htot _ _ (Bool.eq_false_iff.mpr h)
      · exact htrans _ _ _ (htot _ _ (Bool.eq_false_iff.mpr h)) (hb y hy')

lemma pairwise_sortByKey {le : String → String → Bool}
    (htrans : ∀ a b c, le a b = true → le b c = true → le a c = true)
    (htot : ∀ a b, le a b = false → le b a = true) (l : List String) :
    (sortByKey le l).Pairwise (fun x y => le x y = true) := by
  suffices h : ∀ (l acc : List String), acc.Pairwise (fun x y => le x y = true) →
      (l.foldl (fun acc x => insertByKey le x acc) acc).Pairwise (fun x y => le x y = true) by
    exact h l [] (List.Pairwise.nil)
  intro l
  induction l with
  | nil => intro acc hacc; simpa using hacc
  | cons x l ih =>
    intro acc hacc
    simp only [List.foldl_cons]
    exact ih _ (pairwise_insertByKey htrans htot x acc hacc)

lemma suffixLe_trans : ∀ a b c, suffixLe a b = true → suffixLe b c = true → suffixLe a c = true := by
  intro a b c hab hbc
  simp only [suffixLe, decide_eq_true_eq] at *
  omega

lemma suffixLe_tot : ∀ a b, suffixLe a b = false → suffixLe b a = true := by
  intro a b h
  simp only [suffixLe, decide_eq_false_iff_not, decide_eq_true_eq, not_le] at *
  omega

lemma suffixSearch_mem_five {n : String} {s : String} (h : suffixSearch n = some s) :
    s ∈ fiveSuffixes := by
  rcases hrev : n.data.reverse with _ | ⟨b, _ | ⟨c, rest⟩⟩ <;>
    simp only [suffixSearch, hrev] at h
  · exact absurd h (by simp)
  · exact absurd h (by simp)
  · split_ifs at h <;> simp_all [fiveSuffixes]

lemma mem_collectFold :
    ∀ (cat : Schema) (acc : List String) (s : String),
      s ∈ cat.foldl collectStep acc ↔
        s ∈ acc ∨ ∃ fld ∈ cat, suffixSearch fld.name = some s := by
  intro cat
  induction cat with
  | nil => intro acc s; simp
  | cons fld cat ih =>
    intro acc s
    simp only [List.foldl_cons, ih, List.mem_cons]
    cases hsr : suffixSearch fld.name with
    | none =>
      simp only [collectStep, hsr]
      constructor
      · rintro (h | ⟨f, hf, hfs⟩)
        · exact Or.inl h
        · exact Or.inr ⟨f, Or.inr hf, hfs⟩
      · rintro (h | ⟨f, rfl | hf, hfs⟩)
        · exact Or.inl h
        · rw [hsr] at hfs; exact absurd hfs (by simp)
        · exact Or.inr ⟨f, hf, hfs⟩
    | some suf =>
      simp only [collectStep, hsr]
      by_cases hc : acc.contains suf
      · rw [if_pos hc]
        have hmem : suf ∈ acc := by
          simpa using hc
        constructor
        · rintro (h | ⟨f, hf, hfs⟩)
          · exact Or.inl h
          · exact Or.inr ⟨f, Or.inr hf, hfs⟩
        · rintro (h | ⟨f, rfl | hf, hfs⟩)
          · exact Or.inl h
          · rw [hsr] at hfs
            exact Or.inl (Option.some.inj hfs ▸ hmem)
          · exact Or.inr ⟨f, hf, hfs⟩
      · rw [if_neg hc]
        constructor
        · rintro (h | ⟨f, hf, hfs⟩)
          · rcases List.mem_append.mp h with h' | h'
            · exact Or.inl h'
            · refine Or.inr ⟨fld, Or.inl rfl, ?_⟩
              rw [hsr, List.mem_singleton.mp h']
          · exact Or.inr ⟨f, Or.inr hf, hfs⟩
        · rintro (h | ⟨f, rfl | hf, hfs⟩)
          · exact Or.inl (List.mem_append.mpr (Or.inl h))
          · rw [hsr] at hfs
            exact Or.inl (List.mem_append.mpr (Or.inr (by simp [Option.some.inj hfs])))
          · exact Or.inr ⟨f, hf, hfs⟩

lemma nodup_collectFold :
    ∀ (cat : Schema) (acc : List String), acc.Nodup → (cat.foldl collectStep acc).Nodup := by
  intro cat
  induction cat with
  | nil => intro acc h; simpa using h
  | cons fld cat ih =>
    intro acc h
    simp only [List.foldl_cons]
    refine ih _ ?_
    cases hsr : suffixSearch fld.name with
    | none => simp only [collectStep, hsr]; exact h
    | some suf =>
      simp only [collectStep, hsr]
      by_cases hc : acc.contains suf
      · rw [if_pos hc]; exact h
      · rw [if_neg hc]
        have : suf ∉ acc := by simpa using hc
        simp [List.nodup_append, h, this]

lemma five_collectFold :
    ∀ (cat : Schema) (acc : List String), (∀ x ∈ acc, x ∈ fiveSuffixes) →
      ∀ x ∈ cat.foldl collectStep acc, x ∈ fiveSuffixes := by
  intro cat
  induction cat with
  | nil => intro acc h; simpa using h
  | cons fld cat ih =>
    intro acc h
    simp only [List.foldl_cons]
    refine ih _ ?_
    cases hsr : suffixSearch fld.name with
    | none => simp only [collectStep, hsr]; exact h
    | some suf =>
      simp only [collectStep, hsr]
      by_cases hc : acc.contains suf
      · rw [if_pos hc]; exact h
      · rw [if_neg hc]
        intro x hx
        rcases List.mem_append.mp hx with h' | h'
        · exact h x h'
        · rw [List.mem_singleton.mp h']
          exact suffixSearch_mem_five hsr

lemma five_lt_of_le_ne :
    ∀ a ∈ fiveSuffixes, ∀ b ∈ fiveSuffixes,
      suffixLe a b = true → a ≠ b → _suffixOrder a < _suffixOrder b := by
  intro a ha b hb
  simp only [fiveSuffixes, List.mem_cons, List.not_mem_nil, or_false] at ha hb
  rcases ha with rfl | rfl | rfl | rfl | rfl <;>
    rcases hb with rfl | rfl | rfl | rfl | rfl <;> decide

lemma suffixSearch_eq_some_iff (name s : String) :
    suffixSearch name = some s ↔
      ∃ pre b, isBandChar b = true ∧ name.data = pre ++ ['_', b] ∧ s.data = ['_', b] := by
  constructor
  · intro h
    rcases hrev : name.data.reverse with _ | ⟨b, _ | ⟨c, rest⟩⟩ <;>
      simp only [suffixSearch, hrev] at h
    · exact absurd h (by simp)
    · exact absurd h (by simp)
    · have hdata : name.data = rest.reverse ++ [c, b] := by
        have := congrArg List.reverse hrev
        simpa using this
      split_ifs at h with h1 h2 h3 h4 h5 h6 <;>
        refine ⟨rest.reverse, b, ?_, ?_, ?_⟩ <;>
          simp_all [isBandChar] <;> rw [← h]
  · rintro ⟨pre, b, hb, hdata, hs⟩
    have hrev : name.data.reverse = b :: '_' :: pre.reverse := by
      rw [hdata]; simp
    have hsx : s = ⟨['_', b]⟩ := by
      cases s; simp_all
    subst hsx
    simp only [suffixSearch, hrev]
    simp only [isBandChar, Bool.or_eq_true, beq_iff_eq] at hb
    rcases hb with (((rfl | rfl) | rfl) | rfl) | rfl <;> simp

/-- C6: `getCatSuffixes` returns the distinct set of trailing `_<band>`
suffixes (band in g,r,i,z,y) found among the schema's column names,
each exactly once, sorted strictly by the fixed band order g<r<i<z<y,
and the result is empty exactly when no column name ends in such a
suffix. -/
theorem getCatSuffixes_discovers_suffixes (cat : Schema) :
    (getCatSuffixes cat).Nodup
    ∧ (getCatSuffixes cat).Pairwise (fun a b => _suffixOrder a < _suffixOrder b)
    ∧ (∀ s, s ∈ getCatSuffixes cat ↔
        ∃ fld ∈ cat, ∃ pre b, isBandChar b = true ∧
          fld.name.data = pre ++ ['_', b] ∧ s.data = ['_', b])
    ∧ (getCatSuffixes cat = [] ↔
        ∀ fld ∈ cat, ∀ (pre : List Char) (b : Char), isBandChar b = true →
          fld.name.data ≠ pre ++ ['_', b]) := by
  have hperm := sortByKey_perm suffixLe (collectSuffixes cat)
  have hnodup : (getCatSuffixes cat).Nodup :=
    hperm.nodup_iff.mpr (nodup_collectFold cat [] List.nodup_nil)
  have hmem : ∀ s, s ∈ getCatSuffixes cat ↔
      ∃ fld ∈ cat, suffixSearch fld.name = some s := by
    intro s
    rw [getCatSuffixes, hperm.mem_iff, collectSuffixes, mem_collectFold]
    simp
  have hfive : ∀ x ∈ getCatSuffixes cat, x ∈ fiveSuffixes := by
    intro x hx
    exact five_collectFold cat [] (by simp) x (hperm.mem_iff.mp hx)
  have hpw : (getCatSuffixes cat).Pairwise (fun a b => suffixLe a b = true) :=
    pairwise_sortByKey suffixLe_trans suffixLe_tot (collectSuffixes cat)
  have hiff : ∀ s, s ∈ getCatSuffixes cat ↔
      ∃ fld ∈ cat, ∃ pre b, isBandChar b = true ∧
        fld.name.data = pre ++ ['_', b] ∧ s.data = ['_', b] := by
    intro s
    rw [hmem s]
    constructor
    · rintro ⟨fld, hfld, hss⟩
      exact ⟨fld, hfld, (suffixSearch_eq_some_iff fld.name s).mp hss⟩
    · rintro ⟨fld, hfld, hx⟩
      exact ⟨fld, hfld, (suffixSearch_eq_some_iff fld.name s).mpr hx⟩
  refine ⟨hnodup, ?_, hiff, ?_⟩
  · refine (hpw.and hnodup).imp_of_mem ?_
    intro a b ha hb hab
    exact five_lt_of_le_ne a (hfive a ha) b (hfive b hb) hab.1 hab.2
  · constructor
    · intro hnil fld hfld pre b hbc habs
      have hm : (⟨['_', b]⟩ : String) ∈ getCatSuffixes cat := by
        rw [hmem]
        exact ⟨fld, hfld,
          (suffixSearch_eq_some_iff fld.name _).mpr ⟨pre, b, hbc, habs, rfl⟩⟩
      rw [hnil] at hm
      exact absurd hm (List.not_mem_nil _)
    · intro hno
      by_contra hne
      obtain ⟨s, hs⟩ := List.exists_mem_of_ne_nil _ hne
      obtain ⟨fld, hfld, pre, b, hbc, hdata, _⟩ := (hiff s).mp hs
      exact hno fld hfld pre b hbc hdata

lemma assocLookup_dictAssign (bm : List (Nat × Triple)) (k : Nat) (v : Triple) (i : Nat) :
    assocLookup (dictAssign bm k v) i = if i = k then some v else assocLookup bm i := by
  induction bm with
  | nil => simp [dictAssign, assocLookup]
  | cons e rest ih =>
    obtain ⟨k0, v0⟩ := e
    by_cases hk : k0 = k <;> by_cases hi : i = k0 <;>
      simp_all [dictAssign, assocLookup]

lemma assocLookup_none_iff (bm : List (Nat × Triple)) (k : Nat) :
    assocLookup bm k = none ↔ k ∉ bm.map Prod.fst := by
  induction bm with
  | nil => simp [assocLookup]
  | cons e rest ih =>
    obtain ⟨k0, v0⟩ := e
    by_cases hk : k = k0 <;> simp_all [assocLookup]

lemma dictAssign_keys_of_mem {bm : List (Nat × Triple)} {k : Nat} (v : Triple)
    (h : assocLookup bm k ≠ none) :
    (dictAssign bm k v).map Prod.fst = bm.map Prod.fst := by
  induction bm with
  | nil => exact absurd rfl h
  | cons e rest ih =>
    obtain ⟨k0, v0⟩ := e
    by_cases hk : k0 = k
    · subst hk
      simp [dictAssign]
    · have hne : ¬(k = k0) := fun hh => hk hh.symm
      simp only [assocLookup, if_neg hne] at h
      simp [dictAssign, hk, ih h]

lemma dictAssign_keys_of_none {bm : List (Nat × Triple)} {k : Nat} (v : Triple)
    (h : assocLookup bm k = none) :
    (dictAssign bm k v).map Prod.fst = bm.map Prod.fst ++ [k] := by
  induction bm with
  | nil => simp [dictAssign]
  | cons e rest ih =>
    obtain ⟨k0, v0⟩ := e
    by_cases hk : k0 = k
    · subst hk
      simp [assocLookup] at h
    · have hne : ¬(k = k0) := fun hh => hk hh.symm
      simp only [assocLookup, if_neg hne] at h
      simp [dictAssign, hk, ih h]

lemma mem_dictAssign {bm : List (Nat × Triple)} {k : Nat} {v : Triple} {e : Nat × Triple}
    (h : e ∈ dictAssign bm k v) : e = (k, v) ∨ e ∈ bm := by
  induction bm with
  | nil => simpa [dictAssign] using h
  | cons e0 rest ih =>
    obtain ⟨k0, v0⟩ := e0
    by_cases hk : k0 = k
    · rw [dictAssign, if_pos hk] at h
      rcases List.mem_cons.mp h with rfl | h'
      · exact Or.inl rfl
      · exact Or.inr (List.mem_cons.mpr (Or.inr h'))
    · rw [dictAssign, if_neg hk] at h
      rcases List.mem_cons.mp h with rfl | h'
      · exact Or.inr (List.mem_cons.mpr (Or.inl rfl))
      · rcases ih h' with h'' | h''
        · exact Or.inl h''
        · exact Or.inr (List.mem_cons.mpr (Or.inr h''))

lemma bestStep_inv {bm : List (Nat × Triple)} (c : Cand) (h : bmInv bm) :
    bmInv (bestStep bm c) := by
  obtain ⟨m1, om2, d⟩ := c
  cases om2 with
  | none => exact h
  | some m2 =>
    cases hl : assocLookup bm m2.id with
    | none =>
      simp only [bestStep, hl]
      refine ⟨?_, ?_⟩
      · rw [dictAssign_keys_of_none _ hl]
        simp only [List.nodup_append, List.nodup_singleton]
        exact ⟨h.1, by simpa using (assocLookup_none_iff bm m2.id).mp hl⟩
      · intro e he
        rcases mem_dictAssign he with rfl | he'
        · rfl
        · exact h.2 e he'
    | some t0 =>
      simp only [bestStep, hl, tripleDist]
      by_cases hd : d < t0.2.2
      · rw [if_pos hd]
        refine ⟨?_, ?_⟩
        · rw [dictAssign_keys_of_mem _ (by simp [hl])]
          exact h.1
        · intro e he
          rcases mem_dictAssign he with rfl | he'
          · rfl
          · exact h.2 e he'
      · rw [if_neg hd]
        exact h

lemma bestMatchesLoop_inv :
    ∀ (matched : List Cand) (bm : List (Nat × Triple)), bmInv bm →
      bmInv (bestMatchesLoop bm matched) := by
  intro matched
  induction matched with
  | nil => intro bm h; exact h
  | cons c rest ih =>
    intro bm h
    exact ih _ (bestStep_inv c h)

lemma assocLookup_bestStep (bm : List (Nat × Triple)) (c : Cand) (id : Nat) :
    assocLookup (bestStep bm c) id =
      match c.2.1 with
      | none => assocLookup bm id
      | some m2 =>
        if m2.id = id then stepSel (assocLookup bm id) (c.1, m2, c.2.2)
        else assocLookup bm id := by
  obtain ⟨m1, om2, d⟩ := c
  cases om2 with
  | none => rfl
  | some m2 =>
    dsimp only
    by_cases hid : m2.id = id
    · subst hid
      rw [if_pos rfl]
      cases hl : assocLookup bm m2.id with
      | none =>
        simp only [bestStep, hl, stepSel]
        rw [assocLookup_dictAssign, if_pos rfl]
      | some t0 =>
        simp only [bestStep, hl, stepSel, tripleDist]
        by_cases hd : d < t0.2.2
        · rw [if_pos hd, if_pos hd, assocLookup_dictAssign, if_pos rfl]
        · rw [if_neg hd, if_neg hd, hl]
    · rw [if_neg hid]
      have hne : ¬(id = m2.id) := fun hh => hid hh.symm
      cases hl : assocLookup bm m2.id with
      | none =>
        simp only [bestStep, hl]
        rw [assocLookup_dictAssign, if_neg hne]
      | some t0 =>
        simp only [bestStep, hl, tripleDist]
        by_cases hd : d < t0.2.2
        · rw [if_pos hd, assocLookup_dictAssign, if_neg hne]
        · rw [if_neg hd]

lemma lookup_bestMatchesLoop :
    ∀ (matched : List Cand) (bm : List (Nat × Triple)) (id : Nat),
      assocLookup (bestMatchesLoop bm matched) id =
        (sameIdCands id matched).foldl stepSel (assocLookup bm id) := by
  intro matched
  induction matched with
  | nil => intro bm id; rfl
  | cons c rest ih =>
    intro bm id
    obtain ⟨m1, om2, d⟩ := c
    simp only [bestMatchesLoop]
    rw [ih]
    cases om2 with
    | none => rfl
    | some m2 =>
      by_cases hid : m2.id = id
      · subst hid
        simp only [sameIdCands, List.filterMap_cons, if_pos rfl]
        rw [assocLookup_bestStep]
        simp [sameIdCands, List.foldl_cons]
      · simp only [sameIdCands, List.filterMap_cons, if_neg hid]
        rw [assocLookup_bestStep]
        simp [hid, sameIdCands]

lemma foldl_stepSel_some :
    ∀ (l : List Triple) (t0 : Triple), l.foldl stepSel (some t0) = some (selGo t0 l) := by
  intro l
  induction l with
  | nil => intro t0; rfl
  | cons t rest ih =>
    intro t0
    simp only [List.foldl_cons, stepSel, selGo]
    by_cases hd : tripleDist t < tripleDist t0
    · rw [if_pos hd, if_pos hd, ih]
    · rw [if_neg hd, if_neg hd, ih]

lemma selGo_mem (l : List Triple) : ∀ (cur : Triple), selGo cur l ∈ cur :: l := by
  induction l with
  | nil => intro cur; simp [selGo]
  | cons t rest ih =>
    intro cur
    simp only [selGo]
    by_cases hd : tripleDist t < tripleDist cur
    · rw [if_pos hd]
      rcases List.mem_cons.mp (ih t) with h | h
      · rw [h]; simp
      · simp [h]
    · rw [if_neg hd]
      rcases List.mem_cons.mp (ih cur) with h | h
      · rw [h]; simp
      · simp [h]

lemma selGo_le_init (l : List Triple) :
    ∀ (cur : Triple), tripleDist (selGo cur l) ≤ tripleDist cur := by
  induction l with
  | nil => intro cur; simp [selGo]
  | cons t rest ih =>
    intro cur
    simp only [selGo]
    by_cases hd : tripleDist t < tripleDist cur
    · rw [if_pos hd]
      exact le_trans (ih t) (le_of_lt hd)
    · rw [if_neg hd]
      exact ih cur

lemma selGo_min (l : List Triple) :
    ∀ (cur : Triple), ∀ t ∈ l, tripleDist (selGo cur l) ≤ tripleDist t := by
  induction l with
  | nil => intro cur t ht; simp at ht
  | cons t0 rest ih =>
    intro cur t ht
    simp only [selGo]
    rcases List.mem_cons.mp ht with rfl | ht'
    · by_cases hd : tripleDist t < tripleDist cur
      · rw [if_pos hd]
        exact selGo_le_init rest t
      · rw [if_neg hd]
        exact le_trans (selGo_le_init rest cur) (not_lt.mp hd)
    · by_cases hd : tripleDist t0 < tripleDist cur
      · rw [if_pos hd]
        exact ih t0 t ht'
      · rw [if_neg hd]
        exact ih cur t ht'

lemma selGo_find (l : List Triple) :
    ∀ (cur : Triple),
      (cur :: l).find? (fun c => decide (tripleDist c ≤ tripleDist (selGo cur l))) =
        some (selGo cur l) := by
  induction l with
  | nil =>
    intro cur
    simp [selGo]
  | cons t rest ih =>
    intro cur
    by_cases hlt : tripleDist t < tripleDist cur
    · have hsel : selGo cur (t :: rest) = selGo t rest := by
        simp [selGo, if_pos hlt]
      rw [hsel]
      have hskip : ¬(tripleDist cur ≤ tripleDist (selGo t rest)) :=
        not_le.mpr (lt_of_le_of_lt (selGo_le_init rest t) hlt)
      rw [List.find?_cons_of_neg _ (by simpa using hskip)]
      exact ih t
    · have hsel : selGo cur (t :: rest) = selGo cur rest := by
        simp [selGo, if_neg hlt]
      rw [hsel]
      have ihc := ih cur
      by_cases hp : tripleDist cur ≤ tripleDist (selGo cur rest)
      · rw [List.find?_cons_of_pos _ (by simpa using hp)] at ihc
        rw [List.find?_cons_of_pos _ (by simpa using hp)]
        exact ihc
      · rw [List.find?_cons_of_neg _ (by simpa using hp)] at ihc
        rw [List.find?_cons_of_neg _ (by simpa using hp)]
        have hts : ¬(tripleDist t ≤ tripleDist (selGo cur rest)) :=
          not_le.mpr (lt_of_lt_of_le (lt_of_not_le hp) (not_lt.mp hlt))
        rw [List.find?_cons_of_neg _ (by simpa using hts)]
        exact ihc

lemma findE_eq_ok {s : Schema} {n : String} {fld : AfwField} :
    Schema.findE s n = Except.ok fld ↔ Schema.findCol s n = some fld := by
  unfold Schema.findE
  cases h : Schema.findCol s n <;> simp

lemma strictKeys_ok_forall {schema2 outSchema : Schema} :
    ∀ {fs : List String} {ks}, strictKeys schema2 outSchema fs = Except.ok ks →
      ∀ f ∈ fs, (Schema.findCol schema2 f).isSome ∧ (Schema.findCol outSchema f).isSome := by
  intro fs
  induction fs with
  | nil => intro ks h f hf; exact absurd hf (List.not_mem_nil f)
  | cons f0 rest ih =>
    intro ks h f hf
    cases h2 : Schema.findE schema2 f0 with
    | error e => simp [strictKeys, h2] at h
    | ok k2 =>
      cases ho : Schema.findE outSchema f0 with
      | error e => simp [strictKeys, h2, ho] at h
      | ok k =>
        cases hrest : strictKeys schema2 outSchema rest with
        | error e => simp [strictKeys, h2, ho, hrest] at h
        | ok ks' =>
          rcases List.mem_cons.mp hf with rfl | hf'
          · exact ⟨by simp [findE_eq_ok.mp h2], by simp [findE_eq_ok.mp ho]⟩
          · exact ih hrest f hf'

lemma strictMatch_ok_elim {cat1 cat2 : Schema} {matched : List Cand} {inc : Bool}
    {out : StrictOut} (h : strictMatch cat1 cat2 matched inc = Except.ok out) :
    ∃ scm, createSchemaMapper cat1 (some cat2) none false false false false = Except.ok scm ∧
      (∀ f ∈ strictCat2Fields cat2,
        (Schema.findCol cat2 f).isSome ∧ (Schema.findCol (outputSchema scm) f).isSome) ∧
      out.rows = (bestMatchesLoop [] matched).map
        (fun e => buildRow scm (strictCat2Fields cat2) e.2.1 e.2.2.1) ∧
      out.printed = (if inc then
        some ((noMatchLoop [] matched).length,
          matched.length - (noMatchLoop [] matched).length -
            (bestMatchesLoop [] matched).length)
        else none) := by
  simp only [strictMatch] at h
  cases hscm : createSchemaMapper cat1 (some cat2) none false false false false with
  | error e =>
    rw [hscm] at h
    exact Except.noConfusion h
  | ok scm =>
    simp only [hscm] at h
    cases hk : strictKeys cat2 (outputSchema scm) (strictCat2Fields cat2) with
    | error e =>
      rw [hk] at h
      exact Except.noConfusion h
    | ok ks =>
      simp only [hk] at h
      have hout := Except.ok.inj h
      subst hout
      exact ⟨scm, rfl, strictKeys_ok_forall hk, rfl, rfl⟩

lemma noMatchLoop_length :
    ∀ (matched : List Cand) (acc : List SrcRec),
      (noMatchLoop acc matched).length =
        acc.length + matched.countP (fun c => c.2.1.isNone) := by
  intro matched
  induction matched with
  | nil => intro acc; simp [noMatchLoop]
  | cons c rest ih =>
    intro acc
    obtain ⟨m1, om2, d⟩ := c
    cases om2 with
    | none =>
      simp [noMatchLoop, ih, List.countP_cons]
      omega
    | some m2 =>
      simp [noMatchLoop, ih, List.countP_cons]

/-- C1: for every run of `strictMatch` that returns a merged catalog,
the catalog has exactly one row per surviving match and no two surviving
matches share the same second-catalog row identifier: the reduction
keyed by second-catalog id keeps at most one (A-row, B-row) pair per
distinct B id. -/
theorem strictMatch_one_to_one {cat1 cat2 : Schema} {matched : List Cand} {inc : Bool}
    {out : StrictOut} (h : strictMatch cat1 cat2 matched inc = Except.ok out) :
    out.rows.length = (bestMatchesLoop [] matched).length ∧
    ((bestMatchesLoop [] matched).map (fun e => e.2.2.1.id)).Nodup := by
  obtain ⟨scm, _, _, hrows, _⟩ := strictMatch_ok_elim h
  constructor
  · rw [hrows, List.length_map]
  · have hinv := bestMatchesLoop_inv matched []
      ⟨List.nodup_nil, by intro e he; exact absurd he (List.not_mem_nil e)⟩
    have hmap : (bestMatchesLoop [] matched).map (fun e => e.2.2.1.id)
        = (bestMatchesLoop [] matched).map Prod.fst :=
      List.map_congr_left (fun e he => hinv.2 e he)
    rw [hmap]
    exact hinv.1

/-- Witness for C1 at a concrete successful run. -/
theorem strictMatch_one_to_one_witness :
    strictMatch catEx cat2Ex candsEx true = Except.ok outEx ∧
    (outEx.rows.length = (bestMatchesLoop [] candsEx).length ∧
      ((bestMatchesLoop [] candsEx).map (fun e => e.2.2.1.id)).Nodup) :=
  ⟨rfl, strictMatch_one_to_one
    (rfl : strictMatch catEx cat2Ex candsEx true = Except.ok outEx)⟩

/-- C2: the surviving candidate per second-catalog id is the
earliest-processed candidate attaining the minimum separation: it is a
candidate of that id, no candidate of that id has strictly smaller
separation, and it is the first candidate of that id whose separation
is at most its own (first-seen-wins on exact ties). -/
theorem strictMatch_reduction_earliest_min {matched : List Cand} {id : Nat} {t : Triple}
    (h : assocLookup (bestMatchesLoop [] matched) id = some t) :
    t ∈ sameIdCands id matched ∧
    (∀ c ∈ sameIdCands id matched, tripleDist t ≤ tripleDist c) ∧
    (sameIdCands id matched).find?
      (fun c => decide (tripleDist c ≤ tripleDist t)) = some t := by
  rw [lookup_bestMatchesLoop matched [] id] at h
  cases hcs : sameIdCands id matched with
  | nil =>
    rw [hcs] at h
    exact Option.noConfusion h
  | cons t0 rest =>
    rw [hcs] at h
    rw [List.foldl_cons] at h
    rw [show stepSel (assocLookup [] id) t0 = some t0 from rfl] at h
    rw [foldl_stepSel_some] at h
    have ht : t = selGo t0 rest := (Option.some.inj h).symm
    subst ht
    refine ⟨?_, ?_, ?_⟩
    · exact selGo_mem rest t0
    · intro c hc
      rcases List.mem_cons.mp hc with rfl | hc'
      · exact selGo_le_init rest c
      · exact selGo_min rest t0 c hc'
    · exact selGo_find rest t0

/-- Witness for C2: of two candidates for id 5, the closer one
survives. -/
theorem strictMatch_reduction_earliest_min_witness :
    assocLookup (bestMatchesLoop [] candsC2) 5 = some tripleC2 ∧
    (tripleC2 ∈ sameIdCands 5 candsC2 ∧
      (∀ c ∈ sameIdCands 5 candsC2, tripleDist tripleC2 ≤ tripleDist c) ∧
      (sameIdCands 5 candsC2).find?
        (fun c => decide (tripleDist c ≤ tripleDist tripleC2)) = some tripleC2) :=
  ⟨rfl, strictMatch_reduction_earliest_min
    (rfl : assocLookup (bestMatchesLoop [] candsC2) 5 = some tripleC2)⟩

/-- C5 counterexample: two runs that differ only in which first-catalog
row was unmatched return identical values, so the value returned by
`strictMatch` does not include (or even determine) the list of
unmatched first-catalog row ids. -/
theorem strictMatch_returns_no_mismatch_list :
    strictMatch catEx cat2Ex candsN1 true = strictMatch catEx cat2Ex candsN2 true ∧
    (noMatchLoop [] candsN1).map SrcRec.id ≠ (noMatchLoop [] candsN2).map SrcRec.id :=
  ⟨rfl, by decide⟩

/-- C5 (amended): with includeMismatches set, `strictMatch` returns only
the merged catalog and prints (does not fail on) two counts: the number
of first-catalog rows with no candidate, and the number of candidates
minus unmatched minus kept; the unmatched-row list itself is computed
but not returned. -/
theorem strictMatch_reports_counts {cat1 cat2 : Schema} {matched : List Cand}
    {out : StrictOut} (h : strictMatch cat1 cat2 matched true = Except.ok out) :
    out.printed = some (matched.countP (fun c => c.2.1.isNone),
      matched.length - matched.countP (fun c => c.2.1.isNone) -
        (bestMatchesLoop [] matched).length) := by
  obtain ⟨scm, _, _, _, hp⟩ := strictMatch_ok_elim h
  have hn : (noMatchLoop [] matched).length = matched.countP (fun c => c.2.1.isNone) := by
    simpa using noMatchLoop_length matched []
  rw [hp, if_pos rfl, hn]

/-- Witness for C5 at a concrete run with one unmatched row. -/
theorem strictMatch_reports_counts_witness :
    strictMatch catEx cat2Ex candsC5 true = Except.ok outC5 ∧
    outC5.printed = some (candsC5.countP (fun c => c.2.1.isNone),
      candsC5.length - candsC5.countP (fun c => c.2.1.isNone) -
        (bestMatchesLoop [] candsC5).length) :=
  ⟨rfl, strictMatch_reports_counts
    (rfl : strictMatch catEx cat2Ex candsC5 true = Except.ok outC5)⟩

/-- C4 counterexample: with the empty string as filterSuffix, both a
second catalog and a filterSuffix are supplied, yet `createSchemaMapper`
does not fail — the two-catalog guard tests Python truthiness, and the
empty string is falsy. -/
theorem createSchemaMapper_both_supplied_no_error :
    (createSchemaMapper catEx (some cat2Ex) (some "") false false false false).isOk = true :=
  rfl

/-- C4 (amended): `createSchemaMapper` fails with the two-catalog
configuration error exactly when a second catalog is supplied and
filterSuffix is truthy (non-None and non-empty); it fails with the
already-suffixed configuration error when the first guard does not fire,
filterSuffix is supplied (non-None, empty string included), and the
first catalog carries discovered suffixes.  Both guards fire before any
mapping is constructed, so no mapping is produced. -/
theorem createSchemaMapper_guards (cat : Schema) (cat2 : Option Schema)
    (fs : Option String) (z st se ex : Bool) :
    ((cat2.isSome && pyTruthy fs) = true →
      createSchemaMapper cat cat2 fs z st se ex = Except.error MapErr.configTwoCatalogs) ∧
    ((cat2.isSome && pyTruthy fs) = false → fs.isSome = true → getCatSuffixes cat ≠ [] →
      createSchemaMapper cat cat2 fs z st se ex = Except.error MapErr.configAlreadySuffixed) := by
  constructor
  · intro h
    unfold createSchemaMapper
    rw [if_pos h]
  · intro h1 h2 h3
    unfold createSchemaMapper
    rw [if_neg (by simp [h1]), if_pos (by simp [h2, List.length_pos, h3])]

/-- Witness for C4: both guards fire at concrete inputs. -/
theorem createSchemaMapper_guards_witness :
    createSchemaMapper catEx (some cat2Ex) (some "HSC-G") false false false false =
      Except.error MapErr.configTwoCatalogs ∧
    createSchemaMapper cat2Foo none (some "HSC-G") false false false false =
      Except.error MapErr.configAlreadySuffixed :=
  ⟨(createSchemaMapper_guards catEx (some cat2Ex) (some "HSC-G") false false false false).1
      (by decide),
   (createSchemaMapper_guards cat2Foo none (some "HSC-G") false false false false).2
      (by decide) (by decide) (by decide)⟩

/-- C9: the empty string is a non-None filterSuffix value that, together
with a supplied second catalog, passes the two-catalog guard; the
construction then runs with the empty derived suffix, so the reserved
multId column keeps its bare name and every suffixable mapping directive
renames its source column to its own name. -/
theorem createSchemaMapper_empty_suffix_runs :
    ∃ scm, createSchemaMapper catC9 (some cat2C9) (some "") false false false false =
        Except.ok scm ∧
      scm.contains (Directive.outputOnly _idField) = true ∧
      scm.all identityMapped = true :=
  ⟨_, rfl, by decide, by decide⟩

/-- C10: when the second catalog carries no band suffixes, the selected
copy field list is empty and every output row is exactly the assignment
of the mapped first-catalog fields: no value of any second-catalog row
is copied into any output row. -/
theorem strictMatch_no_suffixes_no_copy {cat1 cat2 : Schema} {matched : List Cand}
    {inc : Bool} {out : StrictOut}
    (hs : getCatSuffixes cat2 = [])
    (h : strictMatch cat1 cat2 matched inc = Except.ok out) :
    strictCat2Fields cat2 = [] ∧
    ∃ scm, createSchemaMapper cat1 (some cat2) none false false false false = Except.ok scm ∧
      out.rows = (bestMatchesLoop [] matched).map (fun e => assignRow scm e.2.1) := by
  have hempty : strictCat2Fields cat2 = [] := by
    unfold strictCat2Fields
    rw [hs]
    rfl
  obtain ⟨scm, hscm, _, hrows, _⟩ := strictMatch_ok_elim h
  refine ⟨hempty, scm, hscm, ?_⟩
  rw [hrows, hempty]
  rfl

/-- Witness for C10 at a concrete run against a suffix-free second
catalog. -/
theorem strictMatch_no_suffixes_no_copy_witness :
    getCatSuffixes cat2Ex = [] ∧
    strictMatch catEx cat2Ex candsC10 true = Except.ok outC10 ∧
    (strictCat2Fields cat2Ex = [] ∧
      ∃ scm, createSchemaMapper catEx (some cat2Ex) none false false false false =
          Except.ok scm ∧
        outC10.rows = (bestMatchesLoop [] candsC10).map (fun e => assignRow scm e.2.1)) :=
  ⟨by decide, rfl,
    strictMatch_no_suffixes_no_copy (by decide)
      (rfl : strictMatch catEx cat2Ex candsC10 true = Except.ok outC10)⟩

lemma exbind_ok {α β : Type} (a : α) (f : α → Except MapErr β) :
    (Except.ok a >>= f) = f a := rfl

lemma addDirective_pres {scm : SchemaMapper} {d : Directive} {scm' : SchemaMapper}
    (hn : namesNodup scm) (h : addDirective scm d = Except.ok scm') : namesNodup scm' := by
  unfold addDirective at h
  by_cases hc : (outputSchema scm).any (fun fl => fl.name == d.target.name) = true
  · rw [if_pos hc] at h
    exact Except.noConfusion h
  · rw [if_neg hc] at h
    have hsc := Except.ok.inj h
    subst hsc
    have hnotin : d.target.name ∉ (outputSchema scm).map AfwField.name := by
      intro hx
      rcases List.mem_map.mp hx with ⟨fl, hfl, hfl2⟩
      exact hc (List.any_eq_true.mpr ⟨fl, hfl, by simp [hfl2]⟩)
    simp only [namesNodup, outputSchema, List.map_append, List.map_cons, List.map_nil,
      List.nodup_append, List.nodup_singleton] at *
    refine ⟨hn, by simp, ?_⟩
    intro x hx hx2
    simp only [List.mem_singleton] at hx2
    subst hx2
    exact hnotin hx

lemma bindFind_pres {schema : Schema} {f : String} {g : AfwField → Except MapErr SchemaMapper}
    {scm' : SchemaMapper}
    (hg : ∀ fld, g fld = Except.ok scm' → namesNodup scm')
    (h : (Schema.findE schema f >>= g) = Except.ok scm') : namesNodup scm' := by
  cases hf : Schema.findE schema f with
  | error e =>
    rw [hf] at h
    exact Except.noConfusion h
  | ok fld =>
    rw [hf] at h
    exact hg fld h

lemma bindAdd_pres {scm : SchemaMapper} {d : Directive}
    {g : SchemaMapper → Except MapErr SchemaMapper} {scm' : SchemaMapper}
    (hg : ∀ s, namesNodup s → g s = Except.ok scm' → namesNodup scm')
    (hn : namesNodup scm)
    (h : (addDirective scm d >>= g) = Except.ok scm') : namesNodup scm' := by
  cases ha : addDirective scm d with
  | error e =>
    rw [ha] at h
    exact Except.noConfusion h
  | ok s1 =>
    rw [ha] at h
    exact hg s1 (addDirective_pres hn ha) h

lemma foldlM_pres {α : Type} (step : SchemaMapper → α → Except MapErr SchemaMapper)
    (hstep : ∀ s a s', namesNodup s → step s a = Except.ok s' → namesNodup s') :
    ∀ (l : List α) (s s' : SchemaMapper),
      List.foldlM step s l = Except.ok s' → namesNodup s → namesNodup s' := by
  intro l
  induction l with
  | nil =>
    intro s s' h hp
    rw [List.foldlM_nil] at h
    rw [← Except.ok.inj h]
    exact hp
  | cons a rest ih =>
    intro s s' h hp
    rw [List.foldlM_cons] at h
    cases hs : step s a with
    | error e =>
      rw [hs] at h
      exact Except.noConfusion h
    | ok s1 =>
      rw [hs] at h
      exact ih s1 s' h (hstep s a s1 hp hs)

lemma stageFixed_pres {schema : Schema} {scm scm' : SchemaMapper}
    (h : stageFixed schema scm = Except.ok scm') (hn : namesNodup scm) : namesNodup scm' := by
  unfold stageFixed at h
  cases h1 : List.foldlM (fun scm f => do
      let fld ← Schema.findE schema f
      addDirective scm (.mapped f fld)) scm _fixedFields with
  | error e =>
    rw [h1] at h
    exact Except.noConfusion h
  | ok scm1 =>
    rw [h1] at h
    have hn1 : namesNodup scm1 := by
      refine foldlM_pres _ ?_ _ _ _ h1 hn
      intro s a s' hp hh
      exact bindFind_pres (fun fld hf => addDirective_pres hp hf) hh
    refine foldlM_pres _ ?_ _ _ _ h hn1
    intro s p s' hp hh
    refine foldlM_pres _ ?_ _ _ _ hh hp
    intro s2 f s2' hp2 hh2
    exact bindFind_pres (fun fld hf => addDirective_pres hp2 hf) hh2

lemma stageMultId_pres {fs : Option String} {suffix : String} {scm scm' : SchemaMapper}
    (h : stageMultId fs suffix scm = Except.ok scm') (hn : namesNodup scm) : namesNodup scm' := by
  unfold stageMultId at h
  split_ifs at h
  · exact addDirective_pres hn h
  · rw [← Except.ok.inj h]
    exact hn

lemma stageSuffixable_pres {schema : Schema} {suffixes : List String} {fs : Option String}
    {suffix : String} {scm scm' : SchemaMapper}
    (h : stageSuffixable schema suffixes fs suffix scm = Except.ok scm')
    (hn : namesNodup scm) : namesNodup scm' := by
  unfold stageSuffixable at h
  refine foldlM_pres _ ?_ _ _ _ h hn
  intro s f s' hp hh
  split_ifs at hh
  · exact bindFind_pres (fun fld hf => addDirective_pres hp hf) hh
  · exact bindFind_pres (fun fld hf => addDirective_pres hp hf) hh
  · refine foldlM_pres _ ?_ _ _ _ hh hp
    intro s2 sfx s2' hp2 hh2
    exact bindFind_pres (fun fld hf => addDirective_pres hp2 hf) hh2

lemma stageSuffixablePatterns_pres {schema : Schema} {fs : Option String}
    {suffix : String} {scm scm' : SchemaMapper}
    (h : stageSuffixablePatterns schema fs suffix scm = Except.ok scm')
    (hn : namesNodup scm) : namesNodup scm' := by
  unfold stageSuffixablePatterns at h
  refine foldlM_pres _ ?_ _ _ _ h hn
  intro s p s' hp hh
  refine foldlM_pres _ ?_ _ _ _ hh hp
  intro s2 f s2' hp2 hh2
  split_ifs at hh2
  · exact bindFind_pres (fun fld hf => addDirective_pres hp2 hf) hh2
  · exact bindFind_pres (fun fld hf => addDirective_pres hp2 hf) hh2

lemma stageCat2Body_pres {schema2 : Schema} {scm scm' : SchemaMapper}
    (h : stageCat2Body schema2 scm = Except.ok scm') (hn : namesNodup scm) : namesNodup scm' := by
  unfold stageCat2Body at h
  cases h1 : List.foldlM (fun scm f =>
      List.foldlM (fun scm s => do
          let fld ← Schema.findE schema2 (f ++ s)
          addDirective scm (.outputOnly fld))
        scm (getCatSuffixes schema2)) scm _suffixableFields with
  | error e =>
    rw [h1] at h
    exact Except.noConfusion h
  | ok scm1 =>
    rw [h1] at h
    have hn1 : namesNodup scm1 := by
      refine foldlM_pres _ ?_ _ _ _ h1 hn
      intro s f s' hp hh
      refine foldlM_pres _ ?_ _ _ _ hh hp
      intro s2 sfx s2' hp2 hh2
      exact bindFind_pres (fun fld hf => addDirective_pres hp2 hf) hh2
    refine foldlM_pres _ ?_ _ _ _ h hn1
    intro s p s' hp hh
    refine foldlM_pres _ ?_ _ _ _ hh hp
    intro s2 f s2' hp2 hh2
    exact bindFind_pres (fun fld hf => addDirective_pres hp2 hf) hh2

lemma stageCat2_pres {cat2 : Option Schema} {scm scm' : SchemaMapper}
    (h : stageCat2 cat2 scm = Except.ok scm') (hn : namesNodup scm) : namesNodup scm' := by
  cases cat2 with
  | none =>
    simp only [stageCat2] at h
    rw [← Except.ok.inj h]
    exact hn
  | some schema2 =>
    simp only [stageCat2] at h
    exact stageCat2Body_pres h hn

lemma stageZeroMag_pres {suffixes : List String} {fs : Option String} {suffix : String}
    {z : Bool} {scm scm' : SchemaMapper}
    (h : stageZeroMag suffixes fs suffix z scm = Except.ok scm')
    (hn : namesNodup scm) : namesNodup scm' := by
  unfold stageZeroMag at h
  split_ifs at h
  · exact bindAdd_pres (fun s hs hh => addDirective_pres hs hh) hn h
  · exact bindAdd_pres (fun s hs hh => addDirective_pres hs hh) hn h
  · refine foldlM_pres _ ?_ _ _ _ h hn
    intro s sfx s' hp hh
    exact bindAdd_pres (fun s2 hs2 hh2 => addDirective_pres hs2 hh2) hp hh
  · rw [← Except.ok.inj h]
    exact hn

lemma stageSeeing_pres {suffixes : List String} {fs : Option String} {suffix : String}
    {se : Bool} {scm scm' : SchemaMapper}
    (h : stageSeeing suffixes fs suffix se scm = Except.ok scm')
    (hn : namesNodup scm) : namesNodup scm' := by
  unfold stageSeeing at h
  split_ifs at h
  · exact addDirective_pres hn h
  · exact addDirective_pres hn h
  · refine foldlM_pres _ ?_ _ _ _ h hn
    intro s sfx s' hp hh
    exact addDirective_pres hp hh
  · rw [← Except.ok.inj h]
    exact hn

lemma stageExptime_pres {suffixes : List String} {fs : Option String} {suffix : String}
    {ex : Bool} {scm scm' : SchemaMapper}
    (h : stageExptime suffixes fs suffix ex scm = Except.ok scm')
    (hn : namesNodup scm) : namesNodup scm' := by
  unfold stageExptime at h
  split_ifs at h
  · exact addDirective_pres hn h
  · exact addDirective_pres hn h
  · refine foldlM_pres _ ?_ _ _ _ h hn
    intro s sfx s' hp hh
    exact addDirective_pres hp hh
  · rw [← Except.ok.inj h]
    exact hn

lemma stageStellar_pres {st : Bool} {scm scm' : SchemaMapper}
    (h : stageStellar st scm = Except.ok scm') (hn : namesNodup scm) : namesNodup scm' := by
  unfold stageStellar at h
  split_ifs at h
  · exact bindAdd_pres (fun s hs hh => addDirective_pres hs hh) hn h
  · rw [← Except.ok.inj h]
    exact hn

lemma createSchemaMapperBody_nodup {cat : Schema} {cat2 : Option Schema} {fs : Option String}
    {z st se ex : Bool} {scm : SchemaMapper}
    (h : createSchemaMapperBody cat cat2 fs z st se ex = Except.ok scm) :
    namesNodup scm := by
  unfold createSchemaMapperBody at h
  have hn0 : namesNodup [] := by simp [namesNodup, outputSchema]
  cases h1 : stageFixed cat [] with
  | error e => rw [h1] at h; exact Except.noConfusion h
  | ok s1 =>
  rw [h1] at h
  simp only [exbind_ok] at h
  have hn1 := stageFixed_pres h1 hn0
  cases h2 : stageMultId fs (derivedSuffix fs) s1 with
  | error e => rw [h2] at h; exact Except.noConfusion h
  | ok s2 =>
  rw [h2] at h
  simp only [exbind_ok] at h
  have hn2 := stageMultId_pres h2 hn1
  cases h3 : stageSuffixable cat (getCatSuffixes cat) fs (derivedSuffix fs) s2 with
  | error e => rw [h3] at h; exact Except.noConfusion h
  | ok s3 =>
  rw [h3] at h
  simp only [exbind_ok] at h
  have hn3 := stageSuffixable_pres h3 hn2
  cases h4 : stageSuffixablePatterns cat fs (derivedSuffix fs) s3 with
  | error e => rw [h4] at h; exact Except.noConfusion h
  | ok s4 =>
  rw [h4] at h
  simp only [exbind_ok] at h
  have hn4 := stageSuffixablePatterns_pres h4 hn3
  cases h5 : stageCat2 cat2 s4 with
  | error e => rw [h5] at h; exact Except.noConfusion h
  | ok s5 =>
  rw [h5] at h
  simp only [exbind_ok] at h
  have hn5 := stageCat2_pres h5 hn4
  cases h6 : stageZeroMag (getCatSuffixes cat) fs (derivedSuffix fs) z s5 with
  | error e => rw [h6] at h; exact Except.noConfusion h
  | ok s6 =>
  rw [h6] at h
  simp only [exbind_ok] at h
  have hn6 := stageZeroMag_pres h6 hn5
  cases h7 : stageSeeing (getCatSuffixes cat) fs (derivedSuffix fs) se s6 with
  | error e => rw [h7] at h; exact Except.noConfusion h
  | ok s7 =>
  rw [h7] at h
  simp only [exbind_ok] at h
  have hn7 := stageSeeing_pres h7 hn6
  cases h8 : stageExptime (getCatSuffixes cat) fs (derivedSuffix fs) ex s7 with
  | error e => rw [h8] at h; exact Except.noConfusion h
  | ok s8 =>
  rw [h8] at h
  simp only [exbind_ok] at h
  have hn8 := stageExptime_pres h8 hn7
  exact stageStellar_pres h hn8

lemma createSchemaMapper_ok_nodup {cat : Schema} {cat2 : Option Schema} {fs : Option String}
    {z st se ex : Bool} {scm : SchemaMapper}
    (h : createSchemaMapper cat cat2 fs z st se ex = Except.ok scm) :
    namesNodup scm := by
  unfold createSchemaMapper at h
  split_ifs at h
  all_goals first
    | exact Except.noConfusion h
    | exact createSchemaMapperBody_nodup h

lemma foldl_setCell_get (m2 : SrcRec) :
    ∀ (fs : List String) (r0 : String → Int) (f : String),
      (fs.foldl (fun r f2 => setCell r f2 (m2.get f2)) r0) f =
        if f ∈ fs then m2.get f else r0 f := by
  intro fs
  induction fs with
  | nil => intro r0 f; simp
  | cons f0 rest ih =>
    intro r0 f
    simp only [List.foldl_cons, ih]
    by_cases hf : f ∈ rest
    · rw [if_pos hf, if_pos (List.mem_cons.mpr (Or.inr hf))]
    · rw [if_neg hf]
      by_cases hf0 : f = f0
      · subst hf0
        rw [if_pos (List.mem_cons_self f rest)]
        simp [setCell]
      · rw [if_neg (by simp [hf, hf0])]
        simp [setCell, hf0]

lemma assignFold_skip (m1 : SrcRec) :
    ∀ (scm : SchemaMapper) (r0 : String → Int) (n : String),
      (∀ d ∈ scm, (Directive.target d).name ≠ n) →
      (scm.foldl
        (fun r dir =>
          match dir with
          | .mapped src tgt => setCell r tgt.name (m1.get src)
          | .outputOnly _ => r)
        r0) n = r0 n := by
  intro scm
  induction scm with
  | nil => intro r0 n h; rfl
  | cons d rest ih =>
    intro r0 n h
    simp only [List.foldl_cons]
    rw [ih _ n (fun d2 hd2 => h d2 (List.mem_cons.mpr (Or.inr hd2)))]
    cases d with
    | mapped src tgt =>
      have hne := h _ (List.mem_cons_self _ rest)
      simp only [Directive.target] at hne
      simp only [setCell]
      rw [if_neg (fun hh => hne hh.symm)]
    | outputOnly tgt => rfl

lemma namesNodup_cons {d : Directive} {rest : SchemaMapper} (h : namesNodup (d :: rest)) :
    (∀ d2 ∈ rest, (Directive.target d2).name ≠ (Directive.target d).name) ∧ namesNodup rest := by
  simp only [namesNodup, outputSchema, List.map_cons, List.nodup_cons] at h
  refine ⟨?_, h.2⟩
  intro d2 hd2 heq
  have hmem : (Directive.target d2).name ∈ (rest.map Directive.target).map AfwField.name :=
    List.mem_map.mpr ⟨Directive.target d2, List.mem_map.mpr ⟨d2, hd2, rfl⟩, rfl⟩
  rw [heq] at hmem
  exact h.1 hmem

lemma assignFold_mapped (m1 : SrcRec) :
    ∀ (scm : SchemaMapper) (r0 : String → Int) (src : String) (tgt : AfwField),
      namesNodup scm → Directive.mapped src tgt ∈ scm →
      (scm.foldl
        (fun r dir =>
          match dir with
          | .mapped src tgt => setCell r tgt.name (m1.get src)
          | .outputOnly _ => r)
        r0) tgt.name = m1.get src := by
  intro scm
  induction scm with
  | nil => intro r0 src tgt hn hm; exact absurd hm (List.not_mem_nil _)
  | cons d rest ih =>
    intro r0 src tgt hn hm
    obtain ⟨hfresh, hnrest⟩ := namesNodup_cons hn
    rcases List.mem_cons.mp hm with rfl | hm2
    · simp only [List.foldl_cons]
      have hskip := assignFold_skip m1 rest (setCell r0 tgt.name (m1.get src)) tgt.name
        (fun d2 hd2 => by simpa [Directive.target] using hfresh d2 hd2)
      rw [hskip]
      simp [setCell]
    · simp only [List.foldl_cons]
      exact ih _ src tgt hnrest hm2

lemma buildRow_copied {scm : SchemaMapper} {fs : List String} (m1 m2 : SrcRec)
    {f : String} (hf : f ∈ fs) :
    buildRow scm fs m1 m2 f = m2.get f := by
  unfold buildRow
  rw [foldl_setCell_get, if_pos hf]

lemma buildRow_assigned {scm : SchemaMapper} {fs : List String} (m1 m2 : SrcRec)
    {src : String} {tgt : AfwField} (hn : namesNodup scm)
    (hm : Directive.mapped src tgt ∈ scm) (hnot : tgt.name ∉ fs) :
    buildRow scm fs m1 m2 tgt.name = m1.get src := by
  unfold buildRow
  rw [foldl_setCell_get, if_neg hnot]
  exact assignFold_mapped m1 scm newRow src tgt hn hm

/-- C3 counterexample: the copy selection takes every second-catalog
column ending in a discovered suffix (glob `*<suffix>`), not only the
suffixable columns/patterns.  With the extra suffixed column `foo_g` in
the second catalog there is a kept match, yet `strictMatch` creates no
output row at all: `foo_g` is selected for copying, it was never
reserved in the output schema, and the lookup fails fatally. -/
theorem strictMatch_copy_selection_not_suffixable :
    strictMatch catEx cat2Foo candsEx true = Except.error (MapErr.lookupFailed "foo_g") ∧
    (bestMatchesLoop [] candsEx).length = 1 ∧
    "foo_g" ∈ strictCat2Fields cat2Foo ∧
    "foo_g" ∉ _suffixableFields.map (fun f => f ++ "_g") :=
  ⟨rfl, rfl, by decide, by decide⟩

/-- C3 (amended): whenever `strictMatch` returns a merged catalog, the
catalog has exactly one output row per kept (A-row, B-row, distance)
triple; each row is built by assigning the mapped first-catalog fields
and then copying, for every second-catalog column whose name ends in a
discovered second-catalog suffix, the second-catalog row's value into
the same-named output column — every selected column having been found
in the output schema, where build-mapping step 3 reserved it.  In each
row the selected columns hold the B-row's values and every other mapped
target holds the A-row's source value. -/
theorem strictMatch_builds_rows {cat1 cat2 : Schema} {matched : List Cand} {inc : Bool}
    {out : StrictOut} (h : strictMatch cat1 cat2 matched inc = Except.ok out) :
    ∃ scm, createSchemaMapper cat1 (some cat2) none false false false false = Except.ok scm ∧
      out.rows.length = (bestMatchesLoop [] matched).length ∧
      out.rows = (bestMatchesLoop [] matched).map
        (fun e => buildRow scm (strictCat2Fields cat2) e.2.1 e.2.2.1) ∧
      (∀ f ∈ strictCat2Fields cat2, (Schema.findCol (outputSchema scm) f).isSome = true) ∧
      (∀ e ∈ bestMatchesLoop [] matched, ∀ f ∈ strictCat2Fields cat2,
        buildRow scm (strictCat2Fields cat2) e.2.1 e.2.2.1 f = e.2.2.1.get f) ∧
      (∀ e ∈ bestMatchesLoop [] matched, ∀ (src : String) (tgt : AfwField),
        Directive.mapped src tgt ∈ scm → tgt.name ∉ strictCat2Fields cat2 →
        buildRow scm (strictCat2Fields cat2) e.2.1 e.2.2.1 tgt.name = e.2.1.get src) := by
  obtain ⟨scm, hscm, hfind, hrows, _⟩ := strictMatch_ok_elim h
  have hnodup : namesNodup scm := createSchemaMapper_ok_nodup hscm
  refine ⟨scm, hscm, ?_, hrows, ?_, ?_, ?_⟩
  · rw [hrows, List.length_map]
  · intro f hf
    exact (hfind f hf).2
  · intro e he f hf
    exact buildRow_copied e.2.1 e.2.2.1 hf
  · intro e he src tgt hm hnot
    exact buildRow_assigned e.2.1 e.2.2.1 hnodup hm hnot

/-- Witness for C3 at a concrete run that copies `_g`-suffixed columns
of the second catalog. -/
theorem strictMatch_builds_rows_witness :
    strictMatch catEx cat2Good candsC3 true = Except.ok outC3 ∧
    (∃ scm, createSchemaMapper catEx (some cat2Good) none false false false false =
        Except.ok scm ∧
      outC3.rows.length = (bestMatchesLoop [] candsC3).length ∧
      outC3.rows = (bestMatchesLoop [] candsC3).map
        (fun e => buildRow scm (strictCat2Fields cat2Good) e.2.1 e.2.2.1) ∧
      (∀ f ∈ strictCat2Fields cat2Good,
        (Schema.findCol (outputSchema scm) f).isSome = true) ∧
      (∀ e ∈ bestMatchesLoop [] candsC3, ∀ f ∈ strictCat2Fields cat2Good,
        buildRow scm (strictCat2Fields cat2Good) e.2.1 e.2.2.1 f = e.2.2.1.get f) ∧
      (∀ e ∈ bestMatchesLoop [] candsC3, ∀ (src : String) (tgt : AfwField),
        Directive.mapped src tgt ∈ scm → tgt.name ∉ strictCat2Fields cat2Good →
        buildRow scm (strictCat2Fields cat2Good) e.2.1 e.2.2.1 tgt.name = e.2.1.get src)) :=
  ⟨rfl, strictMatch_builds_rows
    (rfl : strictMatch catEx cat2Good candsC3 true = Except.ok outC3)⟩
